import Mathlib

/-!
Shallow embedding of the in-memory version-control engine of the IDE
repository: the recursive file/folder tree (types.ts), the pure tree
helpers and the branch/stage/commit/switch handlers of App.tsx, and the
commit guard of GitPanel.tsx.  JavaScript `Set<string>` is modelled as an
insertion-ordered duplicate-free list of strings, `Record<string,
BranchState>` as an insertion-ordered association list, and a thrown
exception as `none` in an `Option` result.
-/

namespace IDE

/-- `GitStatus` from types.ts: `'unmodified' | 'modified' | 'new'`. -/
inductive GitStatus where
  | unmodified
  | modified
  | new
deriving DecidableEq, Repr

/-- `FileItem` from types.ts (the `type: 'file'` tag is carried by the
`FileSystemItem` constructor). -/
structure FileItem where
  id : String
  name : String
  language : String
  content : String
  gitStatus : GitStatus
deriving DecidableEq, Repr

/-- `FileSystemItem = FileItem | FolderItem` from types.ts; a folder holds
an ordered list of children. -/
inductive FileSystemItem where
  | file (f : FileItem)
  | folder (id : String) (name : String) (children : List FileSystemItem)
deriving Repr

/-- `Commit` from types.ts. -/
structure Commit where
  id : String
  message : String
  timestamp : String
deriving DecidableEq, Repr

/-- `Partial<FileItem>`: the patch object passed to `updateFileInTree`.
Absent fields are `none`. -/
structure FilePatch where
  id : Option String := none
  name : Option String := none
  language : Option String := none
  content : Option String := none
  gitStatus : Option GitStatus := none
deriving Repr

/-- `{...item, ...updates}`: each present patch field overrides the
corresponding field of the file. -/
def applyPatch (f : FileItem) (p : FilePatch) : FileItem :=
  { id := p.id.getD f.id
    name := p.name.getD f.name
    language := p.language.getD f.language
    content := p.content.getD f.content
    gitStatus := p.gitStatus.getD f.gitStatus }

mutual

/-- `findFileInTree` from App.tsx: depth-first pre-order search for the
first file whose id matches; `null` becomes `none`. -/
def findFileInTree (item : FileSystemItem) (fileId : String) : Option FileItem :=
  match item with
  | .file f => if f.id = fileId then some f else none
  | .folder _ _ children => findFileInTreeList children fileId

/-- The `for (const child of item.children)` loop of `findFileInTree`:
return the first hit among the children. -/
def findFileInTreeList (items : List FileSystemItem) (fileId : String) : Option FileItem :=
  match items with
  | [] => none
  | c :: cs =>
    match findFileInTree c fileId with
    | some found => some found
    | none => findFileInTreeList cs fileId

end

mutual

/-- `updateFileInTree` from App.tsx: copy-on-write rebuild applying the
patch to every file whose id matches. -/
def updateFileInTree (item : FileSystemItem) (fileId : String) (updates : FilePatch) :
    FileSystemItem :=
  match item with
  | .file f => if f.id = fileId then .file (applyPatch f updates) else .file f
  | .folder i n children => .folder i n (updateFileInTreeList children fileId updates)

/-- `item.children.map(child => updateFileInTree(child, fileId, updates))`. -/
def updateFileInTreeList (items : List FileSystemItem) (fileId : String) (updates : FilePatch) :
    List FileSystemItem :=
  match items with
  | [] => []
  | c :: cs => updateFileInTree c fileId updates :: updateFileInTreeList cs fileId updates

end

mutual

/-- `findChangedFiles` from App.tsx: every file whose `gitStatus` is not
`unmodified`, in depth-first tree order (the accumulator-push order of the
source equals this concatenation order). -/
def findChangedFiles (item : FileSystemItem) : List FileItem :=
  match item with
  | .file f => if f.gitStatus = .unmodified then [] else [f]
  | .folder _ _ children => findChangedFilesList children

/-- `item.children.forEach(child => findChangedFiles(child, allFiles))`. -/
def findChangedFilesList (items : List FileSystemItem) : List FileItem :=
  match items with
  | [] => []
  | c :: cs => findChangedFiles c ++ findChangedFilesList cs

end

mutual

/-- `updateStatusesInTree` from App.tsx: copy-on-write rebuild giving
`newStatus` to every file whose id is in `fileIds`. -/
def updateStatusesInTree (item : FileSystemItem) (fileIds : List String)
    (newStatus : GitStatus) : FileSystemItem :=
  match item with
  | .file f => if f.id ∈ fileIds then .file { f with gitStatus := newStatus } else .file f
  | .folder i n children => .folder i n (updateStatusesInTreeList children fileIds newStatus)

/-- `item.children.map(child => updateStatusesInTree(child, fileIds, newStatus))`. -/
def updateStatusesInTreeList (items : List FileSystemItem) (fileIds : List String)
    (newStatus : GitStatus) : List FileSystemItem :=
  match items with
  | [] => []
  | c :: cs =>
    updateStatusesInTree c fileIds newStatus :: updateStatusesInTreeList cs fileIds newStatus

end

mutual

/-- All file nodes of a tree in depth-first pre-order (auxiliary notion used
to state frame and invariant properties; not itself a source function). -/
def allFiles (item : FileSystemItem) : List FileItem :=
  match item with
  | .file f => [f]
  | .folder _ _ children => allFilesList children

/-- `allFiles` over a list of children. -/
def allFilesList (items : List FileSystemItem) : List FileItem :=
  match items with
  | [] => []
  | c :: cs => allFiles c ++ allFilesList cs

end

/-! ### JavaScript `Set<string>` and `Record<string, BranchState>` models -/

/-- `Set.add`: appends the element if absent, keeps insertion order. -/
def setAdd (s : List String) (x : String) : List String :=
  if x ∈ s then s else s ++ [x]

/-- `Set.delete`: removes the element. -/
def setDelete (s : List String) (x : String) : List String :=
  s.filter (fun y => y ≠ x)

/-- `new Set(list)`: iterate the list in order, adding each element. -/
def setOfList (l : List String) : List String :=
  l.foldl setAdd []

/-- `BranchState` from App.tsx: one branch's tree, staged-file set and
commit log. -/
structure BranchState where
  fileSystem : FileSystemItem
  stagedFiles : List String
  commits : List Commit
deriving Repr

/-- Reading `record[key]` of a string-keyed object: `none` models
JavaScript `undefined`. -/
def recordGet (m : List (String × BranchState)) (k : String) : Option BranchState :=
  match m with
  | [] => none
  | p :: ps => if p.1 = k then some p.2 else recordGet ps k

/-- `{...record, [key]: v}`: replace the key in place when present,
otherwise append it at the end (JavaScript object key order). -/
def recordSet (m : List (String × BranchState)) (k : String) (v : BranchState) :
    List (String × BranchState) :=
  match m with
  | [] => [(k, v)]
  | p :: ps => if p.1 = k then (k, v) :: ps else p :: recordSet ps k v

/-- The App component's state relevant to the version-control engine:
the branch store, the current branch name and the cached active file. -/
structure AppState where
  branchStates : List (String × BranchState)
  currentBranch : String
  activeFile : Option FileItem
deriving Repr

/-! ### Engine handlers from App.tsx and GitPanel.tsx

Each handler returns `Option AppState`; `none` models a thrown
`TypeError` (dereferencing `undefined`), which in the source aborts the
event handler. -/

/-- `setCurrentBranchState` from App.tsx: replace the current branch's
snapshot by `updater` of it.  Reading `prev[currentBranch]` of a missing
key would make `updater` dereference `undefined`, hence `none`. -/
def setCurrentBranchState (s : AppState) (updater : BranchState → BranchState) :
    Option AppState :=
  match recordGet s.branchStates s.currentBranch with
  | none => none
  | some bs =>
    some { s with branchStates := recordSet s.branchStates s.currentBranch (updater bs) }

/-- `handleStage` from App.tsx: `new Set(prev.stagedFiles).add(fileId)` —
adds the id unconditionally, with no existence or status check. -/
def handleStage (s : AppState) (fileId : String) : Option AppState :=
  setCurrentBranchState s (fun prev => { prev with stagedFiles := setAdd prev.stagedFiles fileId })

/-- `handleUnstage` from App.tsx: delete the id from the staged set. -/
def handleUnstage (s : AppState) (fileId : String) : Option AppState :=
  setCurrentBranchState s (fun prev => { prev with stagedFiles := setDelete prev.stagedFiles fileId })

/-- `handleStageAll` from App.tsx: replace the staged set with
`new Set(findChangedFiles(fileSystem).map(f => f.id))`. -/
def handleStageAll (s : AppState) : Option AppState :=
  match recordGet s.branchStates s.currentBranch with
  | none => none
  | some cur =>
    let allChangedIds := (findChangedFiles cur.fileSystem).map (fun f => f.id)
    setCurrentBranchState s (fun prev => { prev with stagedFiles := setOfList allChangedIds })

/-- `handleCommit` from App.tsx.  With nothing staged it alerts and leaves
the state unchanged; otherwise it prepends the new commit, marks every
staged file `unmodified` and clears the staged set, all in one state
replacement.  `cid` and `ts` stand for `commit-${Date.now()}` and
`new Date().toISOString()`. -/
def handleCommit (s : AppState) (message cid ts : String) : Option AppState :=
  match recordGet s.branchStates s.currentBranch with
  | none => none
  | some cur =>
    if cur.stagedFiles.length = 0 then some s
    else
      let newCommit : Commit := { id := cid, message := message, timestamp := ts }
      setCurrentBranchState s (fun prev =>
        { prev with
          commits := newCommit :: prev.commits
          fileSystem := updateStatusesInTree prev.fileSystem prev.stagedFiles .unmodified
          stagedFiles := [] })

/-- JavaScript `String.prototype.trim()`: strip leading and trailing
whitespace (modelled over the string's character list so that it reduces
by evaluation). -/
def jsTrim (s : String) : String :=
  ⟨((s.data.dropWhile Char.isWhitespace).reverse.dropWhile Char.isWhitespace).reverse⟩

/-- `stagedFileItems` from App.tsx:
`Array.from(staged).map(id => findFileInTree(fs, id)).filter(Boolean)`. -/
def stagedFileItems (bs : BranchState) : List FileItem :=
  bs.stagedFiles.filterMap (fun i => findFileInTree bs.fileSystem i)

/-- `GitPanel.handleCommit` from GitPanel.tsx: calls the engine's commit
with the trimmed message only when the trimmed message is non-empty and
the resolved staged-file list is non-empty; otherwise nothing happens. -/
def gitPanelCommit (s : AppState) (commitMessage cid ts : String) : Option AppState :=
  match recordGet s.branchStates s.currentBranch with
  | none => none
  | some cur =>
    if jsTrim commitMessage ≠ "" ∧ (stagedFileItems cur).length > 0 then
      handleCommit s (jsTrim commitMessage) cid ts
    else some s

/-- `handleCreateBranch` from App.tsx, with the prompted name as argument:
an empty name or an existing name alerts and changes nothing; otherwise
the current snapshot is copied under the new name (`{...prev[currentBranch]}`)
and the new branch becomes current. -/
def handleCreateBranch (s : AppState) (newBranchName : String) : Option AppState :=
  if newBranchName = "" ∨ (recordGet s.branchStates newBranchName).isSome then some s
  else
    match recordGet s.branchStates s.currentBranch with
    | none => none
    | some cur =>
      some { s with
        branchStates := recordSet s.branchStates newBranchName cur
        currentBranch := newBranchName }

/-- `newBranchFS.children.find(c => c.type === 'file')`. -/
def firstFileChild (items : List FileSystemItem) : Option FileItem :=
  match items with
  | [] => none
  | .file f :: _ => some f
  | .folder _ _ _ :: cs => firstFileChild cs

/-- The active-file re-resolution of `handleSwitchBranch`:
`activeFile ? findFileInTree(newBranchFS, activeFile.id)
            : findFileInTree(newBranchFS, 'user-service-ts')`. -/
def resolveActive (activeFile : Option FileItem) (newBranchFS : FileSystemItem) :
    Option FileItem :=
  match activeFile with
  | some af => findFileInTree newBranchFS af.id
  | none => findFileInTree newBranchFS "user-service-ts"

/-- `handleSwitchBranch` from App.tsx: early return when the name is
current; otherwise set the current branch and re-resolve the active file
against the target branch's tree.  A name missing from the store makes
`branchStates[branchName].fileSystem` throw (`none`): there is no
existence guard in the source. -/
def handleSwitchBranch (s : AppState) (branchName : String) : Option AppState :=
  if branchName = s.currentBranch then some s
  else
    match recordGet s.branchStates branchName with
    | none => none
    | some target =>
      match resolveActive s.activeFile target.fileSystem with
      | some f => some { s with currentBranch := branchName, activeFile := some f }
      | none =>
        match target.fileSystem with
        | .folder _ _ children =>
          some { s with currentBranch := branchName, activeFile := firstFileChild children }
        | .file _ => none

/-- The `updates` object built by `handleCodeChange`: the new content,
plus status `modified` when the cached active file was `unmodified`. -/
def codeChangePatch (af : FileItem) (value : String) : FilePatch :=
  { content := some value
    gitStatus := if af.gitStatus = .unmodified then some .modified else none }

/-- `handleCodeChange` from App.tsx: with no active file it returns; else
it patches the active file's content (and, when the cached status is
`unmodified`, sets status `modified`) in the current branch's tree, and
refreshes the cached active file with the same patch. -/
def handleCodeChange (s : AppState) (value : String) : Option AppState :=
  match s.activeFile with
  | none => some s
  | some af =>
    match setCurrentBranchState s (fun prev =>
        { prev with
          fileSystem := updateFileInTree prev.fileSystem af.id (codeChangePatch af value) }) with
    | none => none
    | some s1 => some { s1 with activeFile := some (applyPatch af (codeChangePatch af value)) }

/-- `handleCreateFile` from App.tsx, with the prompted strings as
arguments (the source returns early on an empty filename): appends a
fresh file with status `new` to the root folder's children
(`[...prev.fileSystem.children, newFile]`, which throws when the root is
not a folder) and makes it active.  `cid` stands for `file-${Date.now()}`. -/
def handleCreateFile (s : AppState) (filename language cid : String) : Option AppState :=
  if filename = "" then some s
  else
    match recordGet s.branchStates s.currentBranch with
    | none => none
    | some prev =>
      match prev.fileSystem with
      | .file _ => none
      | .folder i n children =>
        let newFile : FileItem :=
          { id := cid, name := jsTrim filename
            language := ⟨(jsTrim language).data.map Char.toLower⟩
            content := "", gitStatus := .new }
        some { s with
          branchStates := recordSet s.branchStates s.currentBranch
            { prev with fileSystem := .folder i n (children ++ [.file newFile]) }
          activeFile := some newFile }

/-! ### Auxiliary notions for stating the claims -/

mutual

/-- Apply a function to every file node of a tree (auxiliary notion used to
relate the two copy-on-write rebuilds to a single map over file nodes). -/
def mapFilesInTree (g : FileItem → FileItem) (item : FileSystemItem) : FileSystemItem :=
  match item with
  | .file f => .file (g f)
  | .folder i n children => .folder i n (mapFilesInTreeList g children)

/-- `mapFilesInTree` over a list of children. -/
def mapFilesInTreeList (g : FileItem → FileItem) (items : List FileSystemItem) :
    List FileSystemItem :=
  match items with
  | [] => []
  | c :: cs => mapFilesInTree g c :: mapFilesInTreeList g cs

end

/-- `true` iff the id resolves to a file of the tree whose status is not
`unmodified` — the per-id condition of the §3 staged-set invariant. -/
def fileOkB (t : FileSystemItem) (i : String) : Bool :=
  match findFileInTree t i with
  | some f => decide (f.gitStatus ≠ .unmodified)
  | none => false

/-- Staged-set invariant of one branch: every staged id resolves to a file
with status `≠ unmodified`. -/
def InvB (bs : BranchState) : Prop :=
  ∀ i ∈ bs.stagedFiles, fileOkB bs.fileSystem i = true

/-- Staged-set invariant over every branch of the store. -/
def InvAll (s : AppState) : Prop :=
  ∀ p ∈ s.branchStates, InvB p.2

instance (bs : BranchState) : Decidable (InvB bs) := by
  unfold InvB
  infer_instance

instance (s : AppState) : Decidable (InvAll s) := by
  unfold InvAll
  infer_instance

/-- The engine operations exposed by App.tsx, with the nondeterministic
inputs (prompted strings, `Date.now()`-derived ids, timestamps) as
constructor arguments. -/
inductive EngineOp where
  | stage (fileId : String)
  | unstage (fileId : String)
  | stageAll
  | commit (message cid ts : String)
  | createBranch (name : String)
  | switchBranch (name : String)
  | codeChange (value : String)
  | createFile (filename language cid : String)

/-- Dispatch an engine operation to its handler. -/
def applyOp (s : AppState) : EngineOp → Option AppState
  | .stage fileId => handleStage s fileId
  | .unstage fileId => handleUnstage s fileId
  | .stageAll => handleStageAll s
  | .commit message cid ts => handleCommit s message cid ts
  | .createBranch name => handleCreateBranch s name
  | .switchBranch name => handleSwitchBranch s name
  | .codeChange value => handleCodeChange s value
  | .createFile filename language cid => handleCreateFile s filename language cid

/-- Side conditions under which an operation preserves the staged-set
invariant: `stage` must be called with an id that resolves to a changed
file (the UI only offers such ids), and `stageAll` relies on the §3
global-uniqueness invariant of file ids. -/
def sideCond (s : AppState) : EngineOp → Prop
  | .stage fileId => ∀ bs, recordGet s.branchStates s.currentBranch = some bs →
      fileOkB bs.fileSystem fileId = true
  | .stageAll => ∀ bs, recordGet s.branchStates s.currentBranch = some bs →
      ((allFiles bs.fileSystem).map (fun f => f.id)).Nodup
  | _ => True

/-! ### Concrete fixtures (used by witnesses and counterexamples) -/

/-- A clean sample file. -/
def demoFile : FileItem :=
  { id := "a-ts", name := "a.ts", language := "typescript", content := "let x = 1"
    gitStatus := .unmodified }

/-- A one-file sample tree. -/
def demoTree : FileSystemItem := .folder "root" "proj" [.file demoFile]

/-- A sample branch with nothing staged and no commits. -/
def demoBranch : BranchState := { fileSystem := demoTree, stagedFiles := [], commits := [] }

/-- A sample app state on branch `main` with `demoFile` open. -/
def demoState : AppState :=
  { branchStates := [("main", demoBranch)], currentBranch := "main", activeFile := some demoFile }

/-- The result of staging the dangling id `ghost` on `demoState`. -/
def demoStateGhost : AppState :=
  { branchStates := [("main", { demoBranch with stagedFiles := ["ghost"] })]
    currentBranch := "main", activeFile := some demoFile }

/-- The sample file after an edit: `modified`. -/
def demoFileM : FileItem := { demoFile with content := "let x = 2", gitStatus := .modified }

/-- A sample branch whose one file is `modified` and staged. -/
def demoBranchM : BranchState :=
  { fileSystem := .folder "root" "proj" [.file demoFileM], stagedFiles := ["a-ts"], commits := [] }

/-- A sample app state ready to commit. -/
def demoStateM : AppState :=
  { branchStates := [("main", demoBranchM)], currentBranch := "main", activeFile := some demoFileM }

/-- The branch snapshot produced by a successful commit: new commit
prepended, staged files marked `unmodified`, staged set cleared
(auxiliary name for the value built inside `handleCommit`). -/
def commitResultBranch (bs : BranchState) (message cid ts : String) : BranchState :=
  { bs with
    commits := { id := cid, message := message, timestamp := ts } :: bs.commits
    fileSystem := updateStatusesInTree bs.fileSystem bs.stagedFiles .unmodified
    stagedFiles := [] }

/-- The branch snapshot produced by `stageAll`: the staged set replaced by
exactly the changed-file ids (auxiliary name for the value built inside
`handleStageAll`). -/
def stageAllResultBranch (bs : BranchState) : BranchState :=
  { bs with
    stagedFiles := setOfList ((findChangedFiles bs.fileSystem).map (fun f => f.id)) }

/-- The branch snapshot produced by an edit of the active file (auxiliary
name for the value built inside `handleCodeChange`). -/
def codeChangeResultBranch (bs : BranchState) (af : FileItem) (value : String) : BranchState :=
  { bs with fileSystem := updateFileInTree bs.fileSystem af.id (codeChangePatch af value) }

/-! ### Lemmas about the set and record models -/

theorem mem_setAdd {s : List String} {x y : String} :
    y ∈ setAdd s x ↔ y ∈ s ∨ y = x := by
  unfold setAdd
  by_cases h : x ∈ s
  · simp only [if_pos h]
    constructor
    · exact Or.inl
    · rintro (hy | rfl)
      · exact hy
      · exact h
  · simp [if_neg h]

theorem setAdd_of_mem {s : List String} {x : String} (h : x ∈ s) : setAdd s x = s := by
  unfold setAdd
  exact if_pos h

theorem mem_setDelete {s : List String} {x y : String} :
    y ∈ setDelete s x ↔ y ∈ s ∧ y ≠ x := by
  unfold setDelete
  simp [List.mem_filter]

theorem mem_foldl_setAdd (l acc : List String) (y : String) :
    y ∈ l.foldl setAdd acc ↔ y ∈ acc ∨ y ∈ l := by
  induction l generalizing acc with
  | nil => simp
  | cons a as ih =>
    simp only [List.foldl_cons, ih, mem_setAdd, List.mem_cons]
    tauto

theorem mem_setOfList {l : List String} {y : String} :
    y ∈ setOfList l ↔ y ∈ l := by
  unfold setOfList
  simp [mem_foldl_setAdd]

theorem recordGet_recordSet_self (m : List (String × BranchState)) (k : String)
    (v : BranchState) : recordGet (recordSet m k v) k = some v := by
  induction m with
  | nil => simp [recordSet, recordGet]
  | cons p ps ih =>
    by_cases h : p.1 = k
    · simp [recordSet, recordGet, h]
    · simp [recordSet, recordGet, h, ih]

theorem recordGet_recordSet_ne (m : List (String × BranchState)) (k k' : String)
    (v : BranchState) (h : k' ≠ k) :
    recordGet (recordSet m k v) k' = recordGet m k' := by
  induction m with
  | nil =>
    simp only [recordSet, recordGet]
    rw [if_neg (fun hk => h hk.symm)]
  | cons p ps ih =>
    by_cases hp : p.1 = k
    · simp only [recordSet, if_pos hp, recordGet]
      rw [if_neg (fun hk : k = k' => h hk.symm),
        if_neg (fun hk : p.1 = k' => h (hp.symm.trans hk).symm)]
    · simp only [recordSet, if_neg hp, recordGet]
      by_cases hp' : p.1 = k'
      · rw [if_pos hp', if_pos hp']
      · rw [if_neg hp', if_neg hp', ih]

theorem mem_recordSet {m : List (String × BranchState)} {k : String} {v : BranchState}
    {p : String × BranchState} (hp : p ∈ recordSet m k v) : p = (k, v) ∨ p ∈ m := by
  induction m with
  | nil =>
    simp only [recordSet, List.mem_singleton] at hp
    exact Or.inl hp
  | cons q qs ih =>
    by_cases hq : q.1 = k
    · simp only [recordSet, if_pos hq, List.mem_cons] at hp
      rcases hp with hp | hp
      · exact Or.inl hp
      · exact Or.inr (List.mem_cons_of_mem q hp)
    · simp only [recordSet, if_neg hq, List.mem_cons] at hp
      rcases hp with hp | hp
      · exact Or.inr (hp ▸ List.mem_cons_self q qs)
      · rcases ih hp with h | h
        · exact Or.inl h
        · exact Or.inr (List.mem_cons_of_mem q h)

theorem recordGet_mem {m : List (String × BranchState)} {k : String} {v : BranchState}
    (h : recordGet m k = some v) : (k, v) ∈ m := by
  induction m with
  | nil => simp [recordGet] at h
  | cons p ps ih =>
    by_cases hp : p.1 = k
    · simp only [recordGet, if_pos hp, Option.some.injEq] at h
      subst h
      exact hp ▸ List.mem_cons_self p ps
    · simp only [recordGet, if_neg hp] at h
      exact List.mem_cons_of_mem p (ih h)

theorem recordSet_recordSet_same (m : List (String × BranchState)) (k : String)
    (v : BranchState) : recordSet (recordSet m k v) k v = recordSet m k v := by
  induction m with
  | nil => simp [recordSet]
  | cons p ps ih =>
    by_cases hp : p.1 = k
    · simp [recordSet, hp]
    · simp [recordSet, hp, ih]

/-! ### Lemmas about the tree operations -/

mutual

theorem updateFileInTree_eq_map (t : FileSystemItem) (i : String) (p : FilePatch) :
    updateFileInTree t i p =
      mapFilesInTree (fun f => if f.id = i then applyPatch f p else f) t :=
  match t with
  | .file f => by
    simp only [updateFileInTree, mapFilesInTree]
    by_cases h : f.id = i
    · rw [if_pos h, if_pos h]
    · rw [if_neg h, if_neg h]
  | .folder fid n children => by
    simp only [updateFileInTree, mapFilesInTree]
    rw [updateFileInTreeList_eq_map children i p]

theorem updateFileInTreeList_eq_map (l : List FileSystemItem) (i : String) (p : FilePatch) :
    updateFileInTreeList l i p =
      mapFilesInTreeList (fun f => if f.id = i then applyPatch f p else f) l :=
  match l with
  | [] => by simp [updateFileInTreeList, mapFilesInTreeList]
  | c :: cs => by
    simp only [updateFileInTreeList, mapFilesInTreeList]
    rw [updateFileInTree_eq_map c i p, updateFileInTreeList_eq_map cs i p]

end

mutual

theorem updateStatusesInTree_eq_map (t : FileSystemItem) (ids : List String) (st : GitStatus) :
    updateStatusesInTree t ids st =
      mapFilesInTree (fun f => if f.id ∈ ids then { f with gitStatus := st } else f) t :=
  match t with
  | .file f => by
    simp only [updateStatusesInTree, mapFilesInTree]
    by_cases h : f.id ∈ ids
    · rw [if_pos h, if_pos h]
    · rw [if_neg h, if_neg h]
  | .folder fid n children => by
    simp only [updateStatusesInTree, mapFilesInTree]
    rw [updateStatusesInTreeList_eq_map children ids st]

theorem updateStatusesInTreeList_eq_map (l : List FileSystemItem) (ids : List String)
    (st : GitStatus) :
    updateStatusesInTreeList l ids st =
      mapFilesInTreeList (fun f => if f.id ∈ ids then { f with gitStatus := st } else f) l :=
  match l with
  | [] => by simp [updateStatusesInTreeList, mapFilesInTreeList]
  | c :: cs => by
    simp only [updateStatusesInTreeList, mapFilesInTreeList]
    rw [updateStatusesInTree_eq_map c ids st, updateStatusesInTreeList_eq_map cs ids st]

end

mutual

theorem findFileInTree_mapFiles (g : FileItem → FileItem) (hg : ∀ f, (g f).id = f.id)
    (t : FileSystemItem) (i : String) :
    findFileInTree (mapFilesInTree g t) i = (findFileInTree t i).map g :=
  match t with
  | .file f => by
    simp only [mapFilesInTree, findFileInTree, hg f]
    by_cases h : f.id = i
    · rw [if_pos h, if_pos h]
      rfl
    · rw [if_neg h, if_neg h]
      rfl
  | .folder fid n children => by
    simp only [mapFilesInTree, findFileInTree]
    exact findFileInTreeList_mapFiles g hg children i

theorem findFileInTreeList_mapFiles (g : FileItem → FileItem) (hg : ∀ f, (g f).id = f.id)
    (l : List FileSystemItem) (i : String) :
    findFileInTreeList (mapFilesInTreeList g l) i = (findFileInTreeList l i).map g :=
  match l with
  | [] => by simp [mapFilesInTreeList, findFileInTreeList]
  | c :: cs => by
    simp only [mapFilesInTreeList, findFileInTreeList]
    rw [findFileInTree_mapFiles g hg c i]
    cases hc : findFileInTree c i with
    | none => exact findFileInTreeList_mapFiles g hg cs i
    | some f => rfl

end

mutual

theorem allFiles_mapFiles (g : FileItem → FileItem) (t : FileSystemItem) :
    allFiles (mapFilesInTree g t) = (allFiles t).map g :=
  match t with
  | .file f => by simp [mapFilesInTree, allFiles]
  | .folder fid n children => by
    simp only [mapFilesInTree, allFiles]
    exact allFilesList_mapFiles g children

theorem allFilesList_mapFiles (g : FileItem → FileItem) (l : List FileSystemItem) :
    allFilesList (mapFilesInTreeList g l) = (allFilesList l).map g :=
  match l with
  | [] => by simp [mapFilesInTreeList, allFilesList]
  | c :: cs => by
    simp only [mapFilesInTreeList, allFilesList, List.map_append]
    rw [allFiles_mapFiles g c, allFilesList_mapFiles g cs]

end

mutual

theorem findFileInTree_eq_none_iff (t : FileSystemItem) (i : String) :
    findFileInTree t i = none ↔ ∀ f ∈ allFiles t, f.id ≠ i :=
  match t with
  | .file f => by
    simp only [findFileInTree, allFiles, List.mem_singleton]
    by_cases h : f.id = i
    · simp [if_pos h, h]
    · simp [if_neg h, h]
  | .folder fid n children => by
    simp only [findFileInTree, allFiles]
    exact findFileInTreeList_eq_none_iff children i

theorem findFileInTreeList_eq_none_iff (l : List FileSystemItem) (i : String) :
    findFileInTreeList l i = none ↔ ∀ f ∈ allFilesList l, f.id ≠ i :=
  match l with
  | [] => by simp [findFileInTreeList, allFilesList]
  | c :: cs => by
    simp only [findFileInTreeList, allFilesList, List.mem_append]
    cases hc : findFileInTree c i with
    | some f =>
      constructor
      · intro h
        exact Option.noConfusion h
      · intro h
        have hf := findFileInTree_some c i f hc
        exact absurd hf.1 (h f (Or.inl hf.2))
    | none =>
      show findFileInTreeList cs i = none ↔ _
      rw [findFileInTreeList_eq_none_iff cs i]
      have hcn := (findFileInTree_eq_none_iff c i).mp hc
      constructor
      · intro h f hf
        rcases hf with hf | hf
        · exact hcn f hf
        · exact h f hf
      · intro h f hf
        exact h f (Or.inr hf)

theorem findFileInTree_some (t : FileSystemItem) (i : String) (f : FileItem)
    (h : findFileInTree t i = some f) : f.id = i ∧ f ∈ allFiles t :=
  match t with
  | .file f' => by
    simp only [findFileInTree] at h
    by_cases h' : f'.id = i
    · rw [if_pos h'] at h
      injection h with h''
      subst h''
      exact ⟨h', by simp [allFiles]⟩
    · rw [if_neg h'] at h
      exact Option.noConfusion h
  | .folder fid n children => by
    simp only [findFileInTree] at h
    simpa [allFiles] using findFileInTreeList_some children i f h

theorem findFileInTreeList_some (l : List FileSystemItem) (i : String) (f : FileItem)
    (h : findFileInTreeList l i = some f) : f.id = i ∧ f ∈ allFilesList l :=
  match l with
  | [] => by simp [findFileInTreeList] at h
  | c :: cs => by
    simp only [findFileInTreeList] at h
    cases hc : findFileInTree c i with
    | some f' =>
      rw [hc] at h
      have h' : some f' = some f := h
      injection h' with h''
      subst h''
      have hf := findFileInTree_some c i f' hc
      exact ⟨hf.1, by simp [allFilesList, hf.2]⟩
    | none =>
      rw [hc] at h
      have h' : findFileInTreeList cs i = some f := h
      have hf := findFileInTreeList_some cs i f h'
      exact ⟨hf.1, by simp [allFilesList, hf.2]⟩

end

mutual

theorem mem_findChangedFiles (t : FileSystemItem) (f : FileItem) :
    f ∈ findChangedFiles t ↔ f ∈ allFiles t ∧ f.gitStatus ≠ .unmodified :=
  match t with
  | .file f' => by
    simp only [findChangedFiles, allFiles]
    by_cases h : f'.gitStatus = .unmodified
    · rw [if_pos h]
      simp only [List.not_mem_nil, false_iff, List.mem_singleton]
      rintro ⟨rfl, hne⟩
      exact hne h
    · rw [if_neg h]
      simp only [List.mem_singleton]
      constructor
      · rintro rfl
        exact ⟨rfl, h⟩
      · rintro ⟨rfl, _⟩
        rfl
  | .folder fid n children => by
    simp only [findChangedFiles, allFiles]
    exact mem_findChangedFilesList children f

theorem mem_findChangedFilesList (l : List FileSystemItem) (f : FileItem) :
    f ∈ findChangedFilesList l ↔ f ∈ allFilesList l ∧ f.gitStatus ≠ .unmodified :=
  match l with
  | [] => by simp [findChangedFilesList, allFilesList]
  | c :: cs => by
    simp only [findChangedFilesList, allFilesList, List.mem_append]
    rw [mem_findChangedFiles c f, mem_findChangedFilesList cs f]
    tauto

end

mutual

theorem mapFilesInTree_congr_id (g : FileItem → FileItem) (t : FileSystemItem)
    (h : ∀ f ∈ allFiles t, g f = f) : mapFilesInTree g t = t :=
  match t with
  | .file f => by
    simp only [mapFilesInTree]
    rw [h f (by simp [allFiles])]
  | .folder fid n children => by
    simp only [mapFilesInTree]
    rw [mapFilesInTreeList_congr_id g children (by simpa [allFiles] using h)]

theorem mapFilesInTreeList_congr_id (g : FileItem → FileItem) (l : List FileSystemItem)
    (h : ∀ f ∈ allFilesList l, g f = f) : mapFilesInTreeList g l = l :=
  match l with
  | [] => by simp [mapFilesInTreeList]
  | c :: cs => by
    simp only [mapFilesInTreeList]
    rw [mapFilesInTree_congr_id g c (fun f hf => h f (by simp [allFilesList, hf])),
      mapFilesInTreeList_congr_id g cs (fun f hf => h f (by simp [allFilesList, hf]))]

end

theorem findFileInTreeList_append (l₁ l₂ : List FileSystemItem) (i : String) :
    findFileInTreeList (l₁ ++ l₂) i =
      match findFileInTreeList l₁ i with
      | some f => some f
      | none => findFileInTreeList l₂ i := by
  induction l₁ with
  | nil => simp [findFileInTreeList]
  | cons c cs ih =>
    simp only [List.cons_append, findFileInTreeList]
    cases hc : findFileInTree c i with
    | some f => rfl
    | none => exact ih

theorem findFileInTree_of_mem_nodup {t : FileSystemItem} {f : FileItem}
    (hnd : ((allFiles t).map (fun f => f.id)).Nodup) (hf : f ∈ allFiles t) :
    findFileInTree t f.id = some f := by
  cases hfind : findFileInTree t f.id with
  | none =>
    exact absurd rfl ((findFileInTree_eq_none_iff t f.id).mp hfind f hf)
  | some f' =>
    have h' := findFileInTree_some t f.id f' hfind
    have : f' = f := List.inj_on_of_nodup_map hnd h'.2 hf h'.1
    rw [this]

theorem forall₂_map_self {α β : Type} (P : α → β → Prop) (g : α → β) (l : List α)
    (h : ∀ a ∈ l, P a (g a)) : List.Forall₂ P l (l.map g) := by
  rw [List.forall₂_map_right_iff, List.forall₂_same]
  exact h

/-- Helper: the per-file function behind `updateStatusesInTree` keeps ids. -/
theorem statusMap_keeps_id (ids : List String) (st : GitStatus) (f : FileItem) :
    ((fun f => if f.id ∈ ids then { f with gitStatus := st } else f) f).id = f.id := by
  show (if f.id ∈ ids then { f with gitStatus := st } else f).id = f.id
  by_cases h : f.id ∈ ids
  · rw [if_pos h]
  · rw [if_neg h]

/-- Helper: the per-file function behind `updateFileInTree` keeps ids when
the patch carries no `id` field. -/
theorem patchMap_keeps_id (i : String) (p : FilePatch) (hp : p.id = none) (f : FileItem) :
    ((fun f => if f.id = i then applyPatch f p else f) f).id = f.id := by
  show (if f.id = i then applyPatch f p else f).id = f.id
  by_cases h : f.id = i
  · rw [if_pos h]
    simp [applyPatch, hp]
  · rw [if_neg h]

/-- Helper: closed form of `handleStageAll` on a state with a resolvable
current branch (stated over the explicit fields so it can be re-applied to
its own result). -/
theorem handleStageAll_eq (m : List (String × BranchState)) (k : String)
    (a : Option FileItem) (bs : BranchState) (hbs : recordGet m k = some bs) :
    handleStageAll ⟨m, k, a⟩ = some ⟨recordSet m k (stageAllResultBranch bs), k, a⟩ := by
  unfold handleStageAll setCurrentBranchState
  show (match recordGet m k with
    | none => none
    | some cur => _) = _
  rw [hbs]
  rfl

/-- Helper: applying `stageAll`'s snapshot transformation twice equals
applying it once (the tree is untouched, so the recomputed id set agrees). -/
theorem stageAllResultBranch_idem (bs : BranchState) :
    stageAllResultBranch (stageAllResultBranch bs) = stageAllResultBranch bs := rfl

/-- Helper: closed form of `handleCodeChange` when a file is open and the
current branch resolves. -/
theorem handleCodeChange_eq (m : List (String × BranchState)) (k : String)
    (af : FileItem) (bs : BranchState) (value : String) (hbs : recordGet m k = some bs) :
    handleCodeChange ⟨m, k, some af⟩ value = some
      ⟨recordSet m k (codeChangeResultBranch bs af value), k,
        some (applyPatch af (codeChangePatch af value))⟩ := by
  unfold handleCodeChange setCurrentBranchState
  show (match (match recordGet m k with
      | none => none
      | some bs => _ : Option AppState) with
    | none => none
    | some s1 => _) = _
  rw [hbs]
  rfl

/-- Helper: closed form of `handleSwitchBranch` to a different, existing
branch whose tree resolves the active-file reference. -/
theorem handleSwitchBranch_resolved (s : AppState) (name : String) (target : BranchState)
    (f : FileItem) (hne : name ≠ s.currentBranch)
    (htgt : recordGet s.branchStates name = some target)
    (hres : resolveActive s.activeFile target.fileSystem = some f) :
    handleSwitchBranch s name = some { s with currentBranch := name, activeFile := some f } := by
  unfold handleSwitchBranch
  rw [if_neg hne, htgt]
  show (match resolveActive s.activeFile target.fileSystem with
    | some f => some { s with currentBranch := name, activeFile := some f }
    | none =>
      match target.fileSystem with
      | .folder _ _ children =>
        some { s with currentBranch := name, activeFile := firstFileChild children }
      | .file _ => none) = _
  rw [hres]

/-! ### Claim theorems -/

/-- Claim C8 (confirmed): for every tree, every patch and every id that
matches no file in the tree, `updateFileInTree` returns a tree structurally
equal to the input; the operation is total (never fails or throws). -/
theorem update_noop_law (tree : FileSystemItem) (fileId : String) (patch : FilePatch)
    (h : findFileInTree tree fileId = none) :
    updateFileInTree tree fileId patch = tree := by
  rw [updateFileInTree_eq_map]
  apply mapFilesInTree_congr_id
  intro f hf
  rw [if_neg ((findFileInTree_eq_none_iff tree fileId).mp h f hf)]

/-- Witness for C8: the concrete one-file demo tree is unchanged by an
update aimed at the unknown id `ghost`. -/
theorem update_noop_law_witness :
    findFileInTree demoTree "ghost" = none ∧
    updateFileInTree demoTree "ghost" { content := some "zz" } = demoTree :=
  ⟨rfl, update_noop_law demoTree "ghost" { content := some "zz" } rfl⟩

/-- Claim C5 (amended): `stage(fileId)` always succeeds and adds `fileId`
to the current branch's staged set, leaving tree and commit log untouched;
it is a no-op when the id is already staged, but it performs **no**
existence check, so an id resolving to no file is still added. -/
theorem stage_always_adds (s : AppState) (bs : BranchState) (fileId : String)
    (hbs : recordGet s.branchStates s.currentBranch = some bs) :
    ∃ s' bs', handleStage s fileId = some s' ∧
      s'.currentBranch = s.currentBranch ∧
      recordGet s'.branchStates s'.currentBranch = some bs' ∧
      bs'.fileSystem = bs.fileSystem ∧ bs'.commits = bs.commits ∧
      (∀ i, i ∈ bs'.stagedFiles ↔ i ∈ bs.stagedFiles ∨ i = fileId) ∧
      (fileId ∈ bs.stagedFiles → bs'.stagedFiles = bs.stagedFiles) := by
  unfold handleStage setCurrentBranchState
  rw [hbs]
  refine ⟨_, _, rfl, rfl, recordGet_recordSet_self _ _ _, rfl, rfl, ?_, ?_⟩
  · intro i
    exact mem_setAdd
  · intro h
    exact setAdd_of_mem h

/-- Witness for C5's amended theorem, at the demo state and id `a-ts`. -/
theorem stage_always_adds_witness :
    ∃ s' bs', handleStage demoState "a-ts" = some s' ∧
      s'.currentBranch = demoState.currentBranch ∧
      recordGet s'.branchStates s'.currentBranch = some bs' ∧
      bs'.fileSystem = demoBranch.fileSystem ∧ bs'.commits = demoBranch.commits ∧
      (∀ i, i ∈ bs'.stagedFiles ↔ i ∈ demoBranch.stagedFiles ∨ i = "a-ts") ∧
      ("a-ts" ∈ demoBranch.stagedFiles → bs'.stagedFiles = demoBranch.stagedFiles) :=
  stage_always_adds demoState demoBranch "a-ts" rfl

/-- Counterexample for C5 as stated: staging the dangling id `ghost`
changes the staged set from `[]` to `["ghost"]` even though no file with
that id exists in the tree — not a no-op. -/
theorem stage_nonexistent_not_noop :
    findFileInTree demoTree "ghost" = none ∧
    handleStage demoState "ghost" = some demoStateGhost ∧
    (recordGet demoState.branchStates "main").map BranchState.stagedFiles = some [] ∧
    (recordGet demoStateGhost.branchStates "main").map BranchState.stagedFiles =
      some ["ghost"] :=
  ⟨rfl, rfl, rfl, rfl⟩

/-- Claim C6 (amended): `switchBranch(name)` is a no-op when `name` is the
current branch; whenever it succeeds it changes no branch snapshot and
makes `name` current; but a `name` missing from the store is **not**
silently ignored — the handler dereferences the missing snapshot and
throws (`none`). -/
theorem switchBranch_cases (s : AppState) (name : String) :
    (name = s.currentBranch → handleSwitchBranch s name = some s) ∧
    (name ≠ s.currentBranch → recordGet s.branchStates name = none →
      handleSwitchBranch s name = none) ∧
    (∀ s', handleSwitchBranch s name = some s' →
      s'.branchStates = s.branchStates ∧ s'.currentBranch = name) := by
  refine ⟨?_, ?_, ?_⟩
  · intro h
    unfold handleSwitchBranch
    rw [if_pos h]
  · intro hne hnone
    unfold handleSwitchBranch
    rw [if_neg hne, hnone]
  · intro s' h
    by_cases hc : name = s.currentBranch
    · unfold handleSwitchBranch at h
      rw [if_pos hc] at h
      injection h with h'
      subst h'
      exact ⟨rfl, hc.symm⟩
    · unfold handleSwitchBranch at h
      rw [if_neg hc] at h
      cases htgt : recordGet s.branchStates name with
      | none =>
        rw [htgt] at h
        exact Option.noConfusion h
      | some target =>
        rw [htgt] at h
        have h2 : (match resolveActive s.activeFile target.fileSystem with
          | some f => some { s with currentBranch := name, activeFile := some f }
          | none =>
            match target.fileSystem with
            | .folder _ _ children =>
              some { s with currentBranch := name, activeFile := firstFileChild children }
            | .file _ => none) = some s' := h
        cases hres : resolveActive s.activeFile target.fileSystem with
        | some f =>
          rw [hres] at h2
          injection h2 with h'
          subst h'
          exact ⟨rfl, rfl⟩
        | none =>
          rw [hres] at h2
          cases hfs : target.fileSystem with
          | folder i n children =>
            rw [hfs] at h2
            have h3 : some { s with currentBranch := name, activeFile := firstFileChild children }
                = some s' := h2
            injection h3 with h'
            subst h'
            exact ⟨rfl, rfl⟩
          | file f =>
            rw [hfs] at h2
            exact Option.noConfusion h2

/-- Witness for C6's amended theorem: switching to the current branch of
the demo state is a no-op. -/
theorem switchBranch_cases_witness :
    handleSwitchBranch demoState "main" = some demoState :=
  (switchBranch_cases demoState "main").1 rfl

/-- Counterexample for C6 as stated: switching the demo state to the
nonexistent branch `ghost` is not a silent no-op — the handler throws
(modelled by `none`) on `branchStates["ghost"].fileSystem`. -/
theorem switchBranch_missing_throws :
    recordGet demoState.branchStates "ghost" = none ∧
    ("ghost" = demoState.currentBranch → False) ∧
    handleSwitchBranch demoState "ghost" = none :=
  ⟨rfl, by decide, rfl⟩

/-- Claim C2 (confirmed): a blank commit message never reaches the engine
(the GitPanel guard returns the state unchanged), and a commit with an
empty staged set is rejected unchanged both by the panel guard and by the
engine's own emptiness check. -/
theorem commit_rejection (s : AppState) (bs : BranchState) (message cid ts : String)
    (hbs : recordGet s.branchStates s.currentBranch = some bs) :
    (jsTrim message = "" → gitPanelCommit s message cid ts = some s) ∧
    (bs.stagedFiles = [] →
      gitPanelCommit s message cid ts = some s ∧ handleCommit s message cid ts = some s) := by
  constructor
  · intro hmsg
    unfold gitPanelCommit
    rw [hbs]
    show (if jsTrim message ≠ "" ∧ (stagedFileItems bs).length > 0 then
        handleCommit s (jsTrim message) cid ts
      else some s) = some s
    rw [if_neg (fun hc => hc.1 hmsg)]
  · intro hempty
    have hitems : stagedFileItems bs = [] := by
      unfold stagedFileItems
      rw [hempty]
      rfl
    constructor
    · unfold gitPanelCommit
      rw [hbs]
      show (if jsTrim message ≠ "" ∧ (stagedFileItems bs).length > 0 then
          handleCommit s (jsTrim message) cid ts
        else some s) = some s
      rw [if_neg (fun hc => by
        rw [hitems] at hc
        exact Nat.lt_irrefl 0 hc.2)]
    · unfold handleCommit
      rw [hbs]
      show (if bs.stagedFiles.length = 0 then some s else _) = some s
      rw [if_pos (by rw [hempty]; rfl)]

/-- Witness for C2: a whitespace-only message on the ready-to-commit demo
state leaves it unchanged. -/
theorem commit_rejection_witness :
    gitPanelCommit demoStateM "   " "c0" "t0" = some demoStateM :=
  (commit_rejection demoStateM demoBranchM "   " "c0" "t0" rfl).1 (by decide)

/-- Claim C3 (confirmed): `createBranch(name)` fails (state unchanged) on
an empty or existing name; otherwise it installs a copy of the current
snapshot (same tree, staged set and commit log) under `name`, makes the
new branch current, and leaves every other branch entry unchanged. -/
theorem createBranch_spec (s : AppState) (bs : BranchState) (name : String)
    (hbs : recordGet s.branchStates s.currentBranch = some bs) :
    ((name = "" ∨ (recordGet s.branchStates name).isSome) →
      handleCreateBranch s name = some s) ∧
    (name ≠ "" → recordGet s.branchStates name = none →
      ∃ s', handleCreateBranch s name = some s' ∧
        s'.currentBranch = name ∧
        recordGet s'.branchStates name = some bs ∧
        s'.activeFile = s.activeFile ∧
        ∀ k, k ≠ name → recordGet s'.branchStates k = recordGet s.branchStates k) := by
  constructor
  · intro h
    unfold handleCreateBranch
    rw [if_pos h]
  · intro hname hnone
    unfold handleCreateBranch
    rw [if_neg (by simp [hname, hnone]), hbs]
    exact ⟨_, rfl, rfl, recordGet_recordSet_self _ _ _, rfl,
      fun k hk => recordGet_recordSet_ne _ _ _ _ hk⟩

/-- Witness for C3: creating `feature` from the demo state succeeds and
copies `main`'s snapshot. -/
theorem createBranch_spec_witness :
    ∃ s', handleCreateBranch demoState "feature" = some s' ∧
      s'.currentBranch = "feature" ∧
      recordGet s'.branchStates "feature" = some demoBranch ∧
      s'.activeFile = demoState.activeFile ∧
      ∀ k, k ≠ "feature" → recordGet s'.branchStates k = recordGet demoState.branchStates k :=
  (createBranch_spec demoState demoBranch "feature" rfl).2 (by decide) rfl

/-- Claim C1 (confirmed): with a non-empty staged set and a non-blank
message, `commit` succeeds and the single resulting state shows all three
effects at once — staged set empty, every previously staged id resolving
to an `unmodified` file, and the commit log headed by a fresh commit
carrying exactly the message (the handler performs one atomic state
replacement, so no partial application is observable). -/
theorem commit_atomicity (s : AppState) (bs : BranchState) (message cid ts : String)
    (hbs : recordGet s.branchStates s.currentBranch = some bs)
    (hstaged : bs.stagedFiles ≠ [])
    (_hmsg : jsTrim message ≠ "") :
    ∃ s' bs', handleCommit s message cid ts = some s' ∧
      s'.currentBranch = s.currentBranch ∧
      recordGet s'.branchStates s'.currentBranch = some bs' ∧
      bs'.stagedFiles = [] ∧
      bs'.commits = { id := cid, message := message, timestamp := ts } :: bs.commits ∧
      ∀ i ∈ bs.stagedFiles, ∀ f, findFileInTree bs'.fileSystem i = some f →
        f.gitStatus = .unmodified := by
  have hlen : ¬ bs.stagedFiles.length = 0 := by
    simpa [List.length_eq_zero] using hstaged
  have hC : handleCommit s message cid ts = some
      { s with branchStates :=
          recordSet s.branchStates s.currentBranch (commitResultBranch bs message cid ts) } := by
    unfold handleCommit setCurrentBranchState
    rw [hbs]
    show (if bs.stagedFiles.length = 0 then some s else _) = _
    rw [if_neg hlen]
    rfl
  refine ⟨_, _, hC, rfl, recordGet_recordSet_self _ _ _, rfl, rfl, ?_⟩
  intro i hi f hf
  simp only [commitResultBranch] at hf
  rw [updateStatusesInTree_eq_map,
    findFileInTree_mapFiles _ (statusMap_keeps_id bs.stagedFiles .unmodified)] at hf
  cases hfind : findFileInTree bs.fileSystem i with
  | none =>
    rw [hfind] at hf
    exact Option.noConfusion hf
  | some f0 =>
    rw [hfind] at hf
    have hf' : some (if f0.id ∈ bs.stagedFiles then
        { f0 with gitStatus := GitStatus.unmodified } else f0) = some f := hf
    injection hf' with h'
    have hid := (findFileInTree_some bs.fileSystem i f0 hfind).1
    rw [if_pos (by rw [hid]; exact hi)] at h'
    rw [← h']

/-- Witness for C1: committing `fix` on the ready-to-commit demo state. -/
theorem commit_atomicity_witness :
    ∃ s' bs', handleCommit demoStateM "fix" "c1" "t1" = some s' ∧
      s'.currentBranch = demoStateM.currentBranch ∧
      recordGet s'.branchStates s'.currentBranch = some bs' ∧
      bs'.stagedFiles = [] ∧
      bs'.commits = { id := "c1", message := "fix", timestamp := "t1" } :: demoBranchM.commits ∧
      ∀ i ∈ demoBranchM.stagedFiles, ∀ f, findFileInTree bs'.fileSystem i = some f →
        f.gitStatus = .unmodified :=
  commit_atomicity demoStateM demoBranchM "fix" "c1" "t1" rfl (by decide) (by decide)

/-- Claim C10 (confirmed): a successful commit changes no file's id, name,
language or content anywhere in the tree, and every file whose id was not
staged keeps its status — the only per-file field commit touches is the
status of staged files. -/
theorem commit_frame (s : AppState) (bs : BranchState) (message cid ts : String)
    (hbs : recordGet s.branchStates s.currentBranch = some bs)
    (hstaged : bs.stagedFiles ≠ []) :
    ∃ s' bs', handleCommit s message cid ts = some s' ∧
      recordGet s'.branchStates s'.currentBranch = some bs' ∧
      List.Forall₂ (fun fOld fNew =>
          fNew.id = fOld.id ∧ fNew.name = fOld.name ∧ fNew.language = fOld.language ∧
          fNew.content = fOld.content ∧
          (fOld.id ∉ bs.stagedFiles → fNew.gitStatus = fOld.gitStatus))
        (allFiles bs.fileSystem) (allFiles bs'.fileSystem) := by
  have hlen : ¬ bs.stagedFiles.length = 0 := by
    simpa [List.length_eq_zero] using hstaged
  have hC : handleCommit s message cid ts = some
      { s with branchStates :=
          recordSet s.branchStates s.currentBranch (commitResultBranch bs message cid ts) } := by
    unfold handleCommit setCurrentBranchState
    rw [hbs]
    show (if bs.stagedFiles.length = 0 then some s else _) = _
    rw [if_neg hlen]
    rfl
  refine ⟨_, _, hC, recordGet_recordSet_self _ _ _, ?_⟩
  simp only [commitResultBranch]
  show List.Forall₂ _ (allFiles bs.fileSystem)
    (allFiles (updateStatusesInTree bs.fileSystem bs.stagedFiles .unmodified))
  rw [updateStatusesInTree_eq_map, allFiles_mapFiles]
  apply forall₂_map_self
  intro a _
  by_cases h : a.id ∈ bs.stagedFiles
  · show _ ∧ _ ∧ _ ∧ _ ∧ _
    rw [if_pos h]
    exact ⟨rfl, rfl, rfl, rfl, fun hn => absurd h hn⟩
  · show _ ∧ _ ∧ _ ∧ _ ∧ _
    rw [if_neg h]
    exact ⟨rfl, rfl, rfl, rfl, fun _ => rfl⟩

/-- Witness for C10 at the ready-to-commit demo state. -/
theorem commit_frame_witness :
    ∃ s' bs', handleCommit demoStateM "fix" "c1" "t1" = some s' ∧
      recordGet s'.branchStates s'.currentBranch = some bs' ∧
      List.Forall₂ (fun fOld fNew =>
          fNew.id = fOld.id ∧ fNew.name = fOld.name ∧ fNew.language = fOld.language ∧
          fNew.content = fOld.content ∧
          (fOld.id ∉ demoBranchM.stagedFiles → fNew.gitStatus = fOld.gitStatus))
        (allFiles demoBranchM.fileSystem) (allFiles bs'.fileSystem) :=
  commit_frame demoStateM demoBranchM "fix" "c1" "t1" rfl (by decide)

/-- Claim C9 (confirmed): `stageAll()` replaces the current branch's
staged set with exactly the ids of `findChangedFiles(tree)` (previously
staged ids outside that set are discarded), and running it a second time
with no intervening edits returns the very same state. -/
theorem stageAll_exact_idempotent (s : AppState) (bs : BranchState)
    (hbs : recordGet s.branchStates s.currentBranch = some bs) :
    ∃ s' bs', handleStageAll s = some s' ∧
      s'.currentBranch = s.currentBranch ∧
      recordGet s'.branchStates s'.currentBranch = some bs' ∧
      bs'.fileSystem = bs.fileSystem ∧ bs'.commits = bs.commits ∧
      (∀ i, i ∈ bs'.stagedFiles ↔ i ∈ (findChangedFiles bs.fileSystem).map (fun f => f.id)) ∧
      handleStageAll s' = some s' := by
  have hC := handleStageAll_eq s.branchStates s.currentBranch s.activeFile bs hbs
  refine ⟨_, _, hC, rfl, recordGet_recordSet_self _ _ _, rfl, rfl, ?_, ?_⟩
  · intro i
    exact mem_setOfList
  · have hC2 := handleStageAll_eq
      (recordSet s.branchStates s.currentBranch (stageAllResultBranch bs))
      s.currentBranch s.activeFile (stageAllResultBranch bs) (recordGet_recordSet_self _ _ _)
    rw [hC2, stageAllResultBranch_idem, recordSet_recordSet_same]

/-- Witness for C9 at the demo state with one modified file. -/
theorem stageAll_exact_idempotent_witness :
    ∃ s' bs', handleStageAll demoStateM = some s' ∧
      s'.currentBranch = demoStateM.currentBranch ∧
      recordGet s'.branchStates s'.currentBranch = some bs' ∧
      bs'.fileSystem = demoBranchM.fileSystem ∧ bs'.commits = demoBranchM.commits ∧
      (∀ i, i ∈ bs'.stagedFiles ↔
        i ∈ (findChangedFiles demoBranchM.fileSystem).map (fun f => f.id)) ∧
      handleStageAll s' = some s' :=
  stageAll_exact_idempotent demoStateM demoBranchM rfl

/-- Claim C4 (confirmed): forking `b2` from the current branch, editing
the open file on `b2`, then switching back to the original branch leaves
the original branch's snapshot byte-for-byte unchanged and re-resolves
the open file to its pre-edit content and status. -/
theorem branch_isolation (s : AppState) (bsMain : BranchState) (af afMain : FileItem)
    (b2 value : String)
    (hcur : recordGet s.branchStates s.currentBranch = some bsMain)
    (hb2 : recordGet s.branchStates b2 = none)
    (hb2ne : b2 ≠ "")
    (haf : s.activeFile = some af)
    (hafMain : findFileInTree bsMain.fileSystem af.id = some afMain) :
    ∃ s1 s2 s3,
      handleCreateBranch s b2 = some s1 ∧
      handleCodeChange s1 value = some s2 ∧
      handleSwitchBranch s2 s.currentBranch = some s3 ∧
      s3.currentBranch = s.currentBranch ∧
      recordGet s3.branchStates s.currentBranch = some bsMain ∧
      s3.activeFile = some afMain := by
  have hne : s.currentBranch ≠ b2 := by
    intro h
    rw [h, hb2] at hcur
    exact Option.noConfusion hcur
  have h1 : handleCreateBranch s b2 = some
      { s with branchStates := recordSet s.branchStates b2 bsMain, currentBranch := b2 } := by
    unfold handleCreateBranch
    rw [if_neg (by simp [hb2ne, hb2]), hcur]
  have h2 : handleCodeChange
      (⟨recordSet s.branchStates b2 bsMain, b2, s.activeFile⟩ : AppState) value = some
      ⟨recordSet (recordSet s.branchStates b2 bsMain) b2
          (codeChangeResultBranch bsMain af value), b2,
        some (applyPatch af (codeChangePatch af value))⟩ := by
    rw [haf]
    exact handleCodeChange_eq (recordSet s.branchStates b2 bsMain) b2 af bsMain value
      (recordGet_recordSet_self _ _ _)
  have hmain2 : recordGet (recordSet (recordSet s.branchStates b2 bsMain) b2
      (codeChangeResultBranch bsMain af value)) s.currentBranch = some bsMain := by
    rw [recordGet_recordSet_ne _ _ _ _ hne, recordGet_recordSet_ne _ _ _ _ hne, hcur]
  have h3 : handleSwitchBranch
      (⟨recordSet (recordSet s.branchStates b2 bsMain) b2
          (codeChangeResultBranch bsMain af value), b2,
        some (applyPatch af (codeChangePatch af value))⟩ : AppState) s.currentBranch = some
      ⟨recordSet (recordSet s.branchStates b2 bsMain) b2
          (codeChangeResultBranch bsMain af value), s.currentBranch, some afMain⟩ := by
    exact handleSwitchBranch_resolved _ s.currentBranch bsMain afMain hne hmain2 hafMain
  exact ⟨_, _, _, h1, h2, h3, rfl, hmain2, rfl⟩

/-- Witness for C4: fork `feature` from the demo state, edit the open
file there, switch back to `main`: the original snapshot and the
pre-edit open file reappear. -/
theorem branch_isolation_witness :
    ∃ s1 s2 s3,
      handleCreateBranch demoState "feature" = some s1 ∧
      handleCodeChange s1 "edited" = some s2 ∧
      handleSwitchBranch s2 demoState.currentBranch = some s3 ∧
      s3.currentBranch = demoState.currentBranch ∧
      recordGet s3.branchStates demoState.currentBranch = some demoBranch ∧
      s3.activeFile = some demoFile :=
  branch_isolation demoState demoBranch demoFile demoFile "feature" "edited"
    rfl rfl (by decide) rfl rfl

/-- Helper: `recordSet` preserves a pointwise property of the stored
snapshots when the new value also satisfies it. -/
theorem InvAll_recordSet {m : List (String × BranchState)} {k : String} {v : BranchState}
    (hm : ∀ p ∈ m, InvB p.2) (hv : InvB v) : ∀ p ∈ recordSet m k v, InvB p.2 := by
  intro p hp
  rcases mem_recordSet hp with h | h
  · rw [h]
    exact hv
  · exact hm p h

/-- Helper: success characterization of `setCurrentBranchState`. -/
theorem setCurrentBranchState_some {s : AppState} {u : BranchState → BranchState}
    {s' : AppState} (h : setCurrentBranchState s u = some s') :
    ∃ bs, recordGet s.branchStates s.currentBranch = some bs ∧
      s' = { s with branchStates := recordSet s.branchStates s.currentBranch (u bs) } := by
  unfold setCurrentBranchState at h
  cases hbs : recordGet s.branchStates s.currentBranch with
  | none =>
    rw [hbs] at h
    exact Option.noConfusion h
  | some bs =>
    rw [hbs] at h
    have h2 : some ({ s with
        branchStates := recordSet s.branchStates s.currentBranch (u bs) } : AppState)
        = some s' := h
    injection h2 with h3
    exact ⟨bs, rfl, h3.symm⟩

/-- Helper: an id whose lookup yields a changed file satisfies `fileOkB`. -/
theorem fileOkB_of_find {t : FileSystemItem} {i : String} {f : FileItem}
    (hfind : findFileInTree t i = some f) (hst : f.gitStatus ≠ .unmodified) :
    fileOkB t i = true := by
  unfold fileOkB
  rw [hfind]
  exact decide_eq_true hst

/-- Helper: unpacking `fileOkB`. -/
theorem fileOkB_elim {t : FileSystemItem} {i : String} (h : fileOkB t i = true) :
    ∃ f, findFileInTree t i = some f ∧ f.gitStatus ≠ .unmodified := by
  unfold fileOkB at h
  cases hfind : findFileInTree t i with
  | none =>
    rw [hfind] at h
    exact Bool.noConfusion h
  | some f =>
    rw [hfind] at h
    exact ⟨f, rfl, of_decide_eq_true h⟩

/-- Claim C7 (amended): every engine operation that completes preserves
the staged-set invariant over all branches, **provided** `stage` is only
invoked with an id that currently resolves to a file with status
`≠ unmodified` (which the UI guarantees but the handler does not check),
and `stageAll` runs on a tree with globally unique file ids (the §3 data
invariant).  Without the `stage` proviso the invariant can be broken,
since `handleStage` adds any id unconditionally. -/
theorem staged_invariant_preserved (s s' : AppState) (op : EngineOp)
    (hInv : InvAll s) (hSide : sideCond s op) (h : applyOp s op = some s') :
    InvAll s' := by
  cases op with
  | stage fileId =>
    have h0 : handleStage s fileId = some s' := h
    unfold handleStage at h0
    rcases setCurrentBranchState_some h0 with ⟨bs, hbs, hs'⟩
    subst hs'
    refine InvAll_recordSet hInv ?_
    intro i hi
    rcases mem_setAdd.mp hi with hmem | heq
    · exact hInv _ (recordGet_mem hbs) i hmem
    · rw [heq]
      exact hSide bs hbs
  | unstage fileId =>
    have h0 : handleUnstage s fileId = some s' := h
    unfold handleUnstage at h0
    rcases setCurrentBranchState_some h0 with ⟨bs, hbs, hs'⟩
    subst hs'
    refine InvAll_recordSet hInv ?_
    intro i hi
    exact hInv _ (recordGet_mem hbs) i (mem_setDelete.mp hi).1
  | stageAll =>
    have h0 : handleStageAll s = some s' := h
    unfold handleStageAll at h0
    cases hbs : recordGet s.branchStates s.currentBranch with
    | none =>
      rw [hbs] at h0
      exact Option.noConfusion h0
    | some bs =>
      rw [hbs] at h0
      have h2 : setCurrentBranchState s (fun prev =>
          { prev with stagedFiles :=
              setOfList ((findChangedFiles bs.fileSystem).map (fun f => f.id)) }) = some s' := h0
      rcases setCurrentBranchState_some h2 with ⟨bs2, hbs2, hs'⟩
      rw [hbs] at hbs2
      injection hbs2 with hbsEq
      subst hbsEq
      subst hs'
      refine InvAll_recordSet hInv ?_
      intro i hi
      rcases List.mem_map.mp (mem_setOfList.mp hi) with ⟨f, hfmem, hfid⟩
      have hf := (mem_findChangedFiles bs.fileSystem f).mp hfmem
      have hfind : findFileInTree bs.fileSystem f.id = some f :=
        findFileInTree_of_mem_nodup (hSide bs hbs) hf.1
      rw [← hfid]
      exact fileOkB_of_find hfind hf.2
  | commit message cid ts =>
    have h0 : handleCommit s message cid ts = some s' := h
    unfold handleCommit at h0
    cases hbs : recordGet s.branchStates s.currentBranch with
    | none =>
      rw [hbs] at h0
      exact Option.noConfusion h0
    | some bs =>
      rw [hbs] at h0
      have h2 : (if bs.stagedFiles.length = 0 then some s
          else setCurrentBranchState s (fun prev =>
            { prev with
              commits := ({ id := cid, message := message, timestamp := ts } : Commit)
                :: prev.commits
              fileSystem := updateStatusesInTree prev.fileSystem prev.stagedFiles .unmodified
              stagedFiles := [] })) = some s' := h0
      by_cases hlen : bs.stagedFiles.length = 0
      · rw [if_pos hlen] at h2
        injection h2 with h3
        exact h3 ▸ hInv
      · rw [if_neg hlen] at h2
        rcases setCurrentBranchState_some h2 with ⟨bs2, hbs2, hs'⟩
        subst hs'
        refine InvAll_recordSet hInv ?_
        intro i hi
        exact absurd hi (List.not_mem_nil i)
  | createBranch name =>
    have h0 : handleCreateBranch s name = some s' := h
    unfold handleCreateBranch at h0
    by_cases hguard : name = "" ∨ (recordGet s.branchStates name).isSome
    · rw [if_pos hguard] at h0
      injection h0 with h3
      exact h3 ▸ hInv
    · rw [if_neg hguard] at h0
      cases hbs : recordGet s.branchStates s.currentBranch with
      | none =>
        rw [hbs] at h0
        exact Option.noConfusion h0
      | some cur =>
        rw [hbs] at h0
        have h2 : some ({ s with
            branchStates := recordSet s.branchStates name cur
            currentBranch := name } : AppState) = some s' := h0
        injection h2 with h3
        subst h3
        exact InvAll_recordSet hInv (hInv _ (recordGet_mem hbs))
  | switchBranch name =>
    have h0 : handleSwitchBranch s name = some s' := h
    unfold handleSwitchBranch at h0
    by_cases hc : name = s.currentBranch
    · rw [if_pos hc] at h0
      injection h0 with h3
      exact h3 ▸ hInv
    · rw [if_neg hc] at h0
      cases htgt : recordGet s.branchStates name with
      | none =>
        rw [htgt] at h0
        exact Option.noConfusion h0
      | some target =>
        rw [htgt] at h0
        have h2 : (match resolveActive s.activeFile target.fileSystem with
          | some f => some { s with currentBranch := name, activeFile := some f }
          | none =>
            match target.fileSystem with
            | .folder _ _ children =>
              some { s with currentBranch := name, activeFile := firstFileChild children }
            | .file _ => none) = some s' := h0
        cases hres : resolveActive s.activeFile target.fileSystem with
        | some f =>
          rw [hres] at h2
          injection h2 with h3
          subst h3
          exact hInv
        | none =>
          rw [hres] at h2
          cases hfs : target.fileSystem with
          | folder fi fn fchildren =>
            rw [hfs] at h2
            have h4 :
                some ({ s with currentBranch := name, activeFile := firstFileChild fchildren } :
                  AppState) = some s' := h2
            injection h4 with h3
            subst h3
            exact hInv
          | file f =>
            rw [hfs] at h2
            exact Option.noConfusion h2
  | codeChange value =>
    have h0 : handleCodeChange s value = some s' := h
    unfold handleCodeChange at h0
    cases haf : s.activeFile with
    | none =>
      rw [haf] at h0
      injection h0 with h3
      exact h3 ▸ hInv
    | some af =>
      rw [haf] at h0
      have h2 : (match setCurrentBranchState s (fun prev =>
          { prev with
            fileSystem := updateFileInTree prev.fileSystem af.id (codeChangePatch af value) }) with
        | none => none
        | some s1 => some { s1 with
            activeFile := some (applyPatch af (codeChangePatch af value)) }) = some s' := h0
      cases hscb : setCurrentBranchState s (fun prev =>
          { prev with
            fileSystem := updateFileInTree prev.fileSystem af.id (codeChangePatch af value) }) with
      | none =>
        rw [hscb] at h2
        exact Option.noConfusion h2
      | some s1 =>
        rw [hscb] at h2
        injection h2 with h3
        subst h3
        rcases setCurrentBranchState_some hscb with ⟨bs, hbs, hs1⟩
        subst hs1
        refine InvAll_recordSet hInv ?_
        intro i hi
        rcases fileOkB_elim (hInv _ (recordGet_mem hbs) i hi) with ⟨f0, hfind, hst⟩
        have hfind' : findFileInTree (mapFilesInTree
            (fun f => if f.id = af.id then applyPatch f (codeChangePatch af value) else f)
            bs.fileSystem) i = some
            (if f0.id = af.id then applyPatch f0 (codeChangePatch af value) else f0) := by
          rw [findFileInTree_mapFiles _ (patchMap_keeps_id af.id (codeChangePatch af value) rfl),
            hfind]
          rfl
        show fileOkB (updateFileInTree bs.fileSystem af.id (codeChangePatch af value)) i = true
        rw [updateFileInTree_eq_map]
        refine fileOkB_of_find hfind' ?_
        by_cases hid : f0.id = af.id
        · rw [if_pos hid]
          show (codeChangePatch af value).gitStatus.getD f0.gitStatus ≠ .unmodified
          unfold codeChangePatch
          by_cases haf0 : af.gitStatus = .unmodified
          · rw [if_pos haf0]
            intro hcontra
            exact GitStatus.noConfusion hcontra
          · rw [if_neg haf0]
            exact hst
        · rw [if_neg hid]
          exact hst
  | createFile filename language cid =>
    have h0 : handleCreateFile s filename language cid = some s' := h
    unfold handleCreateFile at h0
    by_cases hfn : filename = ""
    · rw [if_pos hfn] at h0
      injection h0 with h3
      exact h3 ▸ hInv
    · rw [if_neg hfn] at h0
      cases hbs : recordGet s.branchStates s.currentBranch with
      | none =>
        rw [hbs] at h0
        exact Option.noConfusion h0
      | some prev =>
        rw [hbs] at h0
        have h2 : (match prev.fileSystem with
          | .file _ => none
          | .folder fi fn fchildren => some
              ({ s with
                branchStates := recordSet s.branchStates s.currentBranch
                  { prev with fileSystem := .folder fi fn (fchildren ++ [.file
                    { id := cid, name := jsTrim filename
                      language := ⟨(jsTrim language).data.map Char.toLower⟩
                      content := "", gitStatus := .new }]) }
                activeFile := some
                    { id := cid, name := jsTrim filename
                      language := ⟨(jsTrim language).data.map Char.toLower⟩
                      content := "", gitStatus := .new } } : AppState)) = some s' := h0
        cases hfs : prev.fileSystem with
        | file f =>
          rw [hfs] at h2
          exact Option.noConfusion h2
        | folder fi fn fchildren =>
          rw [hfs] at h2
          injection h2 with h3
          subst h3
          refine InvAll_recordSet hInv ?_
          intro j hj
          rcases fileOkB_elim (hInv _ (recordGet_mem hbs) j hj) with ⟨f0, hfind, hst⟩
          rw [hfs] at hfind
          refine fileOkB_of_find (f := f0) ?_ hst
          show findFileInTreeList (fchildren ++ [_]) j = some f0
          rw [findFileInTreeList_append]
          have hfind2 : findFileInTreeList fchildren j = some f0 := hfind
          rw [hfind2]

/-- Witness for C7's amended theorem: unstaging on the clean demo state
preserves the invariant. -/
theorem staged_invariant_preserved_witness : InvAll demoState :=
  staged_invariant_preserved demoState demoState (.unstage "zz") (by decide) trivial rfl

/-- Counterexample for C7 as stated: from a state satisfying the staged-set
invariant, the engine operation `stage("ghost")` yields a state whose
staged set holds an id that resolves to no file — the invariant does not
survive every engine operation. -/
theorem staged_invariant_counterexample :
    InvAll demoState ∧
    applyOp demoState (.stage "ghost") = some demoStateGhost ∧
    ¬ InvAll demoStateGhost :=
  ⟨by decide, rfl, by decide⟩

end IDE
